import Mathlib

/-!
Verification development for the `hey` HTTP load generator
(package `requester` plus the `main` command driver).

The Go source is shallowly embedded: pure computations become Lean
functions, Go pointer aliasing (the `*url.URL` and `http.Header`
objects reachable from a request) is made explicit through a small
heap of URL and header objects addressed by indices, the network is an
oracle giving the outcome of each attempted round trip, and the
bounded result channel is a FIFO queue with an explicit capacity.
Wall-clock timing (the per-request latency trace, the QPS throttle
ticker and the duration timer's sleep) is not modelled; only its
control-flow effects are.
-/

namespace Hey

/-- Embeds the constant `maxResult = 1000000`, the maximum size of the
buffer of the result channel. -/
def maxResult : Nat := 1000000

/-- Embeds the constant `maxIdleConn = 500`. -/
def maxIdleConn : Nat := 500

/-- Embeds the helper `min(a, b int) int` at the end of the requester
source, specialized to the natural numbers it is applied to. -/
def goMin (a b : Nat) : Nat := if a < b then a else b

/-- A heap-allocated `url.URL` object: the fields the program touches
(`Host` and `Path`). -/
structure URL where
  host : String
  path : String
deriving DecidableEq, Repr

/-- An `http.Header` map: association list from key to value slice. -/
def HeaderMap : Type := List (String × List String)

instance : DecidableEq HeaderMap := by
  unfold HeaderMap
  infer_instance

/-- An `http.Request` as the program uses it.  `urlRef` and
`headerRef` are heap addresses: in Go, `Request.URL` is a pointer and
`Request.Header` a map reference, so a struct copy shares the pointed
objects unless they are replaced. -/
structure Request where
  host : String
  urlRef : Nat
  headerRef : Nat
  body : Option String
  contentLength : Int
deriving DecidableEq, Repr

/-- The mutable heap of URL objects and header maps; an address is an
index, allocation appends. -/
structure Heap where
  urls : List URL
  headers : List HeaderMap
deriving DecidableEq

/-- The outcome fields of one `*http.Response` that the program
reads. -/
structure Resp where
  statusCode : Nat
  contentLength : Int
deriving DecidableEq, Repr

/-- Embeds the `result` record: one outcome of one request.  The five
phase durations and the offset are wall-clock measurements and are not
modelled. -/
structure Result where
  err : Option String
  statusCode : Nat
  contentLength : Int
deriving DecidableEq, Repr

/-- A bounded FIFO Go channel: `buf` holds the buffered elements,
`cap` the capacity fixed at `make` time. -/
structure BChan (α : Type) where
  cap : Nat
  buf : List α
deriving DecidableEq

/-- A buffered, non-blocking-capable send: when the buffer is below
capacity the element is appended (FIFO), otherwise the send blocks,
modelled as `none`.  A blocked send never loses its element; it simply
has not happened yet. -/
def BChan.push {α : Type} (ch : BChan α) (x : α) : Option (BChan α) :=
  if ch.buf.length < ch.cap then some { ch with buf := ch.buf ++ [x] } else none

/-- Embeds the `Work` struct: the run parameters and the internal
channels.  `initialized` models the `sync.Once` guard `initOnce`;
`requestFunc` is the optional custom request generator. -/
structure Work where
  request : Request
  requestBody : String
  requestFunc : Option Request := none
  n : Nat
  c : Nat
  h2 : Bool := false
  timeout : Nat := 20
  qps : Rat := 0
  disableCompression : Bool := false
  disableKeepAlives : Bool := false
  disableRedirects : Bool := false
  output : String := ""
  certfile : String := ""
  keyfile : String := ""
  randMark : Bool := false
  initialized : Bool := false
  results : Option (BChan Result) := none
  stopCh : Option (BChan Unit) := none
deriving DecidableEq

/-- Embeds `Work.Init`: under the `sync.Once` guard, allocates the
result channel with capacity `min(b.C*1000, maxResult)` and the stop
channel with capacity `b.C`.  A second call runs nothing. -/
def Work.Init (w : Work) : Work :=
  if w.initialized then w
  else
    { w with
        initialized := true
        results := some { cap := goMin (w.c * 1000) maxResult, buf := [] }
        stopCh := some { cap := w.c, buf := [] } }

/-- Embeds `Work.Stop`: sends one stop token per worker slot, `b.C`
tokens in all, into the stop channel. -/
def Work.Stop (w : Work) : Work :=
  { w with
      stopCh := w.stopCh.map (fun ch => { ch with buf := ch.buf ++ List.replicate w.c () }) }

/-- Embeds `strings.Replace(s, pat, rep, -1)` on character lists:
every non-overlapping occurrence of `pat`, scanned left to right, is
replaced by `rep`.  The fuel argument is the length of the scanned
list, enough because each step consumes at least one character. -/
def replaceAllAux (pat rep : List Char) : Nat → List Char → List Char
  | 0, s => s
  | _, [] => []
  | fuel + 1, c :: rest =>
    if pat.isPrefixOf (c :: rest) then
      rep ++ replaceAllAux pat rep fuel ((c :: rest).drop pat.length)
    else
      c :: replaceAllAux pat rep fuel rest

/-- Embeds `strings.Replace(s, pat, rep, -1)` on strings. -/
def goReplace (s pat rep : String) : String :=
  String.mk (replaceAllAux pat.data rep.data s.data.length s.data)

/-- The character list of `strconv.Itoa(n)` for the natural numbers
the program passes it (worker index and iteration count). -/
def itoaChars (n : Nat) : List Char :=
  if n = 0 then ['0'] else ((Nat.digits 10 n).map Nat.digitChar).reverse

/-- Embeds `strconv.Itoa` on natural numbers. -/
def itoa (n : Nat) : String :=
  String.mk (itoaChars n)

/-- The uniqueness tag substituted for the `HEY` marker:
`strconv.Itoa(gort) + "-" + strconv.Itoa(n)`, built from the worker
index `gort` and the iteration count `n`. -/
def tag (gort n : Nat) : String :=
  itoa gort ++ "-" ++ itoa n

/-- Embeds `cloneRequest`: a shallow copy of the request struct (the
URL pointer `urlRef` is shared with the original), a deep copy of the
header map (a fresh heap object with the same contents), and a fresh
body reader over `body` when `body` is non-empty. -/
def cloneRequest (h : Heap) (r : Request) (body : String) : Heap × Request :=
  let hdr := h.headers.getD r.headerRef []
  ({ h with headers := h.headers ++ [hdr] },
   { r with
       headerRef := h.headers.length
       body := if 0 < body.length then some body else r.body })

/-- One header map after the marker substitution of `makeRequest`:
every value has each `HEY` occurrence replaced by the tag; the keys
are written back unchanged. -/
def substHeader (hd : HeaderMap) (t : String) : HeaderMap :=
  hd.map (fun kv => (kv.1, kv.2.map (fun v => goReplace v "HEY" t)))

/-- A URL after the marker substitution of `makeRequest` on its
`Host` and `Path` fields. -/
def markURL (u : URL) (t : String) : URL :=
  { host := goReplace u.host "HEY" t, path := goReplace u.path "HEY" t }

/-- Embeds the `if b.RandMark` block of `makeRequest`: mutates the
URL object the request points to (`req.URL.Host`, `req.URL.Path`) in
place on the heap, rewrites the values of the request's header map in
place, and installs a fresh body built from `b.RequestBody` with its
length as `ContentLength`. -/
def applyRandMark (w : Work) (h : Heap) (req : Request) (gort n : Nat) : Heap × Request :=
  let t := tag gort n
  let u := h.urls.getD req.urlRef { host := "", path := "" }
  let h1 := { h with urls := h.urls.set req.urlRef (markURL u t) }
  let hd := h1.headers.getD req.headerRef []
  let h2 := { h1 with headers := h1.headers.set req.headerRef (substHeader hd t) }
  let body := goReplace w.requestBody "HEY" t
  (h2, { req with body := some body, contentLength := (body.length : Int) })

/-- The request-construction part of `makeRequest`: take the custom
generator's request if one is supplied, otherwise clone the template;
then apply the marker substitution when `RandMark` is set. -/
def buildRequest (w : Work) (h : Heap) (gort n : Nat) : Heap × Request :=
  let p :=
    match w.requestFunc with
    | some rf => (h, rf)
    | none => cloneRequest h w.request w.requestBody
  if w.randMark then applyRandMark w p.1 p.2 gort n else p

/-- The result record `makeRequest` pushes, as a function of the
outcome of `c.Do`: on success the status code and content length are
read from the response; on a transport error they keep their zero
values and the error lands in the `err` field. -/
def resultOf (e : Except String Resp) : Result :=
  match e with
  | Except.ok resp => { err := none, statusCode := resp.statusCode, contentLength := resp.contentLength }
  | Except.error s => { err := some s, statusCode := 0, contentLength := 0 }

/-- Embeds `makeRequest(gort, n, c)`: builds the request (clone or
generator, then marker substitution), performs the round trip — whose
outcome the oracle supplies for this worker index and iteration — and
produces exactly one result record whatever that outcome was.  The
latency-trace callbacks only record wall-clock times and are not
modelled. -/
def makeRequest (w : Work) (oracle : Nat → Nat → Except String Resp)
    (h : Heap) (gort n : Nat) : Heap × Result :=
  let p := buildRequest w h gort n
  (p.1, resultOf (oracle gort n))

/-- Embeds the loop of `runWorker`: iterations `i, i+1, ...` with `k`
iterations left.  Each iteration first polls the stop channel without
blocking — `stopAt j` says whether a stop token is available at the
poll before iteration `j` — and returns at once when a token is seen;
otherwise it runs `makeRequest` (the QPS throttle only paces the loop
in time and is not modelled).  Produces the heap and the records this
worker pushed, in iteration order. -/
def runWorkerFrom (w : Work) (oracle : Nat → Nat → Except String Resp)
    (stopAt : Nat → Bool) (gort : Nat) : Heap → Nat → Nat → Heap × List Result
  | h, _, 0 => (h, [])
  | h, i, k + 1 =>
    if stopAt i then (h, [])
    else
      let p := makeRequest w oracle h gort i
      let q := runWorkerFrom w oracle stopAt gort p.1 (i + 1) k
      (q.1, p.2 :: q.2)

/-- Embeds `runWorker(client, gort, n)`: `n` iterations starting at
iteration 0. -/
def runWorker (w : Work) (oracle : Nat → Nat → Except String Resp)
    (stopAt : Nat → Bool) (h : Heap) (gort n : Nat) : Heap × List Result :=
  runWorkerFrom w oracle stopAt gort h 0 n

/-- The worker fan-out of `runWorkers`: workers `g, g+1, ...` with `k`
workers left, each assigned `b.N / b.C` iterations (Go integer
division: the remainder `N mod C` is ignored, as the source comments
state).  The workers run concurrently in Go; they are linearized here,
which fixes one interleaving of their heap effects — the records each
worker emits and their number do not depend on the interleaving. -/
def runWorkersFrom (w : Work) (oracle : Nat → Nat → Except String Resp)
    (stopAts : Nat → Nat → Bool) : Heap → Nat → Nat → Heap × List Result
  | h, _, 0 => (h, [])
  | h, g, k + 1 =>
    let p := runWorker w oracle (stopAts g) h g (w.n / w.c)
    let q := runWorkersFrom w oracle stopAts p.1 (g + 1) k
    (q.1, p.2 ++ q.2)

/-- Embeds the spawning loop of `runWorkers`: `b.C` workers with
indices `0 .. b.C-1`, joined by the wait group before returning. -/
def runWorkers (w : Work) (oracle : Nat → Nat → Except String Resp)
    (stopAts : Nat → Nat → Bool) (h : Heap) : Heap × List Result :=
  runWorkersFrom w oracle stopAts h 0 w.c

/-- The TLS client configuration fields `runWorkers` sets up. -/
structure TLSConfig where
  insecureSkipVerify : Bool
  serverName : String
  hasRootCAPool : Bool
  clientCertCount : Nat
deriving DecidableEq, Repr

/-- The transport configuration `runWorkers` builds once for the
whole run and shares among all workers. -/
structure Transport where
  tlsClientConfig : TLSConfig
  maxIdleConnsPerHost : Nat
  disableCompression : Bool
  disableKeepAlives : Bool
  http2Configured : Bool
deriving DecidableEq, Repr

/-- Embeds the transport construction at the top of `runWorkers`:
when both a certificate file and a key file are supplied, the loaded
client certificate and a pinned root pool are installed; otherwise
neither is.  `InsecureSkipVerify` is set to `true` in both branches.
`MaxIdleConnsPerHost` is `min(b.C, maxIdleConn)`; the compression and
keep-alive toggles carry over; the HTTP/2 upgrade is applied when
`b.H2` is set, else protocol negotiation is pinned to HTTP/1.1. -/
def runWorkersTransport (w : Work) : Transport :=
  if w.certfile ≠ "" ∧ w.keyfile ≠ "" then
    { tlsClientConfig :=
        { insecureSkipVerify := true
          serverName := w.request.host
          hasRootCAPool := true
          clientCertCount := 1 }
      maxIdleConnsPerHost := goMin w.c maxIdleConn
      disableCompression := w.disableCompression
      disableKeepAlives := w.disableKeepAlives
      http2Configured := w.h2 }
  else
    { tlsClientConfig :=
        { insecureSkipVerify := true
          serverName := w.request.host
          hasRootCAPool := false
          clientCertCount := 0 }
      maxIdleConnsPerHost := goMin w.c maxIdleConn
      disableCompression := w.disableCompression
      disableKeepAlives := w.disableKeepAlives
      http2Configured := w.h2 }

/-- The lifecycle events of one `Run()` call. -/
inductive Event
  | startReporter
  | startWorker (i : Nat)
  | workerDone (i : Nat)
  | closeResults
  | reporterDrained
  | finalizeSummary
deriving DecidableEq, Repr

/-- The event trace of `Run()` in program order.  `Run` starts the
reporter goroutine first, then calls `runWorkers`, whose spawned
worker events interleave arbitrarily inside the `wes` block but are
all joined by the wait group before `runWorkers` returns; then
`Finish` closes the result channel, waits on `report.done` until the
reporter has drained the channel, and finalizes the summary, after
which `Run` returns. -/
def runTrace (wes : List Event) : List Event :=
  Event.startReporter :: wes ++ [Event.closeResults, Event.reporterDrained, Event.finalizeSummary]

/-- Index of the first occurrence of `e` in `l` (length of `l` when
absent). -/
def firstPos {α : Type} [DecidableEq α] (e : α) : List α → Nat
  | [] => 0
  | x :: xs => if x = e then 0 else firstPos e xs + 1

/-- The configuration errors `main` reports through `usageAndExit`
or `errAndExit` before any request is issued, plus the invalid
request-template error of `requestFunc`. -/
inductive ConfigError
  | concTooSmall
  | numOrConcTooSmall
  | numLessThanConc
  | badTemplate
deriving DecidableEq, Repr

/-- Embeds `math.MaxInt32`, the value `main` substitutes for `-n`
when a duration is given. -/
def maxInt32 : Int := 2147483647

/-- Embeds the parameter validation of `main`: with a positive
duration, the request count is overwritten with `math.MaxInt32` and
only `conc >= 1` is required; with no duration, `num >= 1`,
`conc >= 1` and `num >= conc` are required.  Returns the effective
`(num, conc)` pair a run proceeds with. -/
def validateArgs (num conc dur : Int) : Except ConfigError (Int × Int) :=
  if 0 < dur then
    if conc ≤ 0 then Except.error ConfigError.concTooSmall
    else Except.ok (maxInt32, conc)
  else
    if num ≤ 0 ∨ conc ≤ 0 then Except.error ConfigError.numOrConcTooSmall
    else if num < conc then Except.error ConfigError.numLessThanConc
    else Except.ok (num, conc)

/-- The initialization pipeline of a run, in program order: `main`
validates the numeric parameters, then `requestFunc` builds the
request template (`tmpl = none` models `http.NewRequest` failing) and
only then constructs the `Work` and runs it.  Any error stops the
program before a run starts. -/
def setupRun (num conc dur : Int) (tmpl : Option Request) :
    Except ConfigError (Int × Int × Request) :=
  match validateArgs num conc dur with
  | Except.error e => Except.error e
  | Except.ok (n2, c2) =>
    match tmpl with
    | none => Except.error ConfigError.badTemplate
    | some r => Except.ok (n2, c2, r)

/-- A concrete request template for concrete evaluations. -/
def exTemplate : Request :=
  { host := "example.com", urlRef := 0, headerRef := 0, body := none, contentLength := 0 }

/-- A concrete `Work` with the spec's example parameters N=1000, C=33. -/
def exWork : Work :=
  { request := exTemplate, requestBody := "", n := 1000, c := 33 }

/-- A concrete network oracle: every round trip fails. -/
def exOracle : Nat → Nat → Except String Resp :=
  fun _ _ => Except.error "connection refused"

/-- An empty concrete heap. -/
def exHeap0 : Heap := { urls := [], headers := [] }

lemma runWorkerFrom_length_no_stop (w : Work) (oracle : Nat → Nat → Except String Resp)
    (g : Nat) : ∀ (k : Nat) (h : Heap) (i : Nat),
    ((runWorkerFrom w oracle (fun _ => false) g h i k).2).length = k := by
  intro k
  induction k with
  | zero => intro h i; rfl
  | succ k ih => intro h i; simp [runWorkerFrom, ih]

lemma runWorkerFrom_get_no_stop (w : Work) (oracle : Nat → Nat → Except String Resp)
    (g : Nat) : ∀ (k i j : Nat) (h : Heap), j < k →
    ((runWorkerFrom w oracle (fun _ => false) g h i k).2).get? j =
      some (resultOf (oracle g (i + j))) := by
  intro k
  induction k with
  | zero => intro i j h hj; omega
  | succ k ih =>
    intro i j h hj
    cases j with
    | zero => simp [runWorkerFrom, makeRequest]
    | succ j =>
      have hrec := ih (i + 1) j (makeRequest w oracle h g i).1 (by omega)
      have hidx : i + 1 + j = i + (j + 1) := by omega
      rw [hidx] at hrec
      simpa [runWorkerFrom] using hrec

lemma runWorkerFrom_length_stop (w : Work) (oracle : Nat → Nat → Except String Resp)
    (g k0 : Nat) : ∀ (k i : Nat) (h : Heap),
    ((runWorkerFrom w oracle (fun j => decide (k0 ≤ j)) g h i k).2).length =
      min (k0 - i) k := by
  intro k
  induction k with
  | zero => intro i h; simp [runWorkerFrom]
  | succ k ih =>
    intro i h
    by_cases hs : k0 ≤ i
    · simp only [runWorkerFrom, decide_eq_true_eq, if_pos hs, List.length_nil]
      omega
    · simp only [runWorkerFrom, decide_eq_true_eq, if_neg hs, List.length_cons, ih]
      omega

lemma runWorkersFrom_length_no_stop (w : Work) (oracle : Nat → Nat → Except String Resp) :
    ∀ (k : Nat) (h : Heap) (g : Nat),
    ((runWorkersFrom w oracle (fun _ _ => false) h g k).2).length = k * (w.n / w.c) := by
  intro k
  induction k with
  | zero => intro h g; simp [runWorkersFrom]
  | succ k ih =>
    intro h g
    simp [runWorkersFrom, runWorker, runWorkerFrom_length_no_stop, ih]
    ring

/-- Claim C1: with duration mode disabled and QPS = 0, the total
number of requests issued equals `C * floor(N/C)` — each of the `C`
workers performs exactly `floor(N/C)` iterations — and the remainder
`N mod C` is never issued (the total is `N - N mod C`). -/
theorem total_requests_fixed_count (w : Work) (oracle : Nat → Nat → Except String Resp)
    (h : Heap) (hq : w.qps = 0) (hc : 1 ≤ w.c) (hcn : w.c ≤ w.n) :
    ((runWorkers w oracle (fun _ _ => false) h).2).length = w.c * (w.n / w.c)
    ∧ w.c * (w.n / w.c) = w.n - w.n % w.c := by
  constructor
  · unfold runWorkers
    exact runWorkersFrom_length_no_stop w oracle w.c h 0
  · exact Nat.eq_sub_of_add_eq (Nat.div_add_mod w.n w.c)

/-- Witness for C1 at the spec's example N=1000, C=33: 990 requests. -/
theorem total_requests_fixed_count_witness :
    ((runWorkers exWork exOracle (fun _ _ => false) exHeap0).2).length =
        exWork.c * (exWork.n / exWork.c)
    ∧ exWork.c * (exWork.n / exWork.c) = exWork.n - exWork.n % exWork.c :=
  total_requests_fixed_count exWork exOracle exHeap0 rfl (by decide) (by decide)

/-- Claim C2: `Init` allocates the result stream as a bounded FIFO
channel with capacity exactly `min(C * 1000, 1000000)`; a successful
push appends to the tail and keeps the buffer within capacity, and a
push on a full stream blocks (returns no updated channel) instead of
dropping the record. -/
theorem result_stream_bounded (w : Work) (hini : w.initialized = false) :
    (Work.Init w).results = some { cap := goMin (w.c * 1000) maxResult, buf := [] }
    ∧ goMin (w.c * 1000) maxResult = min (w.c * 1000) 1000000
    ∧ (∀ (ch ch2 : BChan Result) (x : Result), ch.push x = some ch2 →
        ch2.buf = ch.buf ++ [x] ∧ ch2.buf.length ≤ ch2.cap)
    ∧ (∀ (ch : BChan Result) (x : Result), ch.cap ≤ ch.buf.length → ch.push x = none) := by
  refine ⟨by simp [Work.Init, hini], ?_, ?_, ?_⟩
  · unfold goMin maxResult
    rw [Nat.min_def]
    split <;> split <;> omega
  · intro ch ch2 x hp
    unfold BChan.push at hp
    split at hp
    · cases hp
      refine ⟨rfl, ?_⟩
      simp
      omega
    · cases hp
  · intro ch x hl
    unfold BChan.push
    rw [if_neg]
    omega

/-- Witness for C2 at the concrete `Work` with C=33. -/
theorem result_stream_bounded_witness :
    (Work.Init exWork).results = some { cap := goMin (exWork.c * 1000) maxResult, buf := [] }
    ∧ goMin (exWork.c * 1000) maxResult = min (exWork.c * 1000) 1000000
    ∧ (∀ (ch ch2 : BChan Result) (x : Result), ch.push x = some ch2 →
        ch2.buf = ch.buf ++ [x] ∧ ch2.buf.length ≤ ch2.cap)
    ∧ (∀ (ch : BChan Result) (x : Result), ch.cap ≤ ch.buf.length → ch.push x = none) :=
  result_stream_bounded exWork rfl

/-- Claim C6: a transport error never aborts the worker — the worker
still completes all `n` of its iterations — and the failed iteration
still contributes exactly one result record, at its position in the
worker's output, with the error captured in the `err` field and the
status code and content length left at their zero values. -/
theorem transport_error_recorded (w : Work) (oracle : Nat → Nat → Except String Resp)
    (h : Heap) (g n i : Nat) (e : String) (hi : i < n)
    (he : oracle g i = Except.error e) :
    ((runWorker w oracle (fun _ => false) h g n).2).length = n
    ∧ ((runWorker w oracle (fun _ => false) h g n).2).get? i =
        some { err := some e, statusCode := 0, contentLength := 0 } := by
  constructor
  · exact runWorkerFrom_length_no_stop w oracle g n h 0
  · unfold runWorker
    rw [runWorkerFrom_get_no_stop w oracle g n 0 i h hi]
    simp [resultOf, he]

/-- Witness for C6: a worker given 2 iterations against an oracle
that refuses every connection still emits both records. -/
theorem transport_error_recorded_witness :
    ((runWorker exWork exOracle (fun _ => false) exHeap0 0 2).2).length = 2
    ∧ ((runWorker exWork exOracle (fun _ => false) exHeap0 0 2).2).get? 1 =
        some { err := some "connection refused", statusCode := 0, contentLength := 0 } :=
  transport_error_recorded exWork exOracle exHeap0 0 2 1 "connection refused" (by decide) rfl

/-- Claim C7: with concurrency below 1 or an invalid request
template, the initialization pipeline stops with a configuration
error and no run proceeds. -/
theorem config_rejected (num conc dur : Int) (tmpl : Option Request)
    (h : conc < 1 ∨ tmpl = none) :
    ∃ e, setupRun num conc dur tmpl = Except.error e := by
  rcases h with hc | ht
  · have hcle : conc ≤ 0 := by omega
    unfold setupRun validateArgs
    by_cases hd : 0 < dur
    · simp [hd, hcle]
    · simp [hd, hcle]
  · subst ht
    unfold setupRun
    cases hv : validateArgs num conc dur with
    | error e => exact ⟨e, rfl⟩
    | ok p =>
      cases p with
      | mk n2 c2 => exact ⟨ConfigError.badTemplate, rfl⟩

/-- Witness for C7: C=0 is rejected. -/
theorem config_rejected_witness :
    ∃ e, setupRun 200 0 0 (some exTemplate) = Except.error e :=
  config_rejected 200 0 0 (some exTemplate) (Or.inl (by decide))

/-- Claim C8: with a positive duration the validated request count is
`math.MaxInt32` whatever `-n` was — the same for any two values of
`-n`, so the user's N imposes no bound — and a worker runs until the
stop poll first sees a token: with tokens observable from iteration
`k` on, it issues exactly `k` requests, however large its iteration
budget `n2` is. -/
theorem duration_mode_unbounded (num num2 conc dur : Int) (hd : 0 < dur) (hc : 1 ≤ conc) :
    validateArgs num conc dur = Except.ok (maxInt32, conc)
    ∧ validateArgs num conc dur = validateArgs num2 conc dur
    ∧ (∀ (w : Work) (oracle : Nat → Nat → Except String Resp) (h : Heap) (g k n2 : Nat),
        k ≤ n2 →
        ((runWorker w oracle (fun j => decide (k ≤ j)) h g n2).2).length = k) := by
  have hc0 : ¬ conc ≤ 0 := by omega
  refine ⟨by simp [validateArgs, hd, hc0], by simp [validateArgs, hd, hc0], ?_⟩
  intro w oracle h g k n2 hk
  unfold runWorker
  rw [runWorkerFrom_length_stop]
  omega

/-- Witness for C8 at dur=1, conc=50: the effective N is MaxInt32 for
both n=200 and n=5. -/
theorem duration_mode_unbounded_witness :
    validateArgs 200 50 1 = Except.ok (maxInt32, 50)
    ∧ validateArgs 200 50 1 = validateArgs 5 50 1
    ∧ (∀ (w : Work) (oracle : Nat → Nat → Except String Resp) (h : Heap) (g k n2 : Nat),
        k ≤ n2 →
        ((runWorker w oracle (fun j => decide (k ≤ j)) h g n2).2).length = k) :=
  duration_mode_unbounded 200 5 50 1 (by decide) (by decide)

/-- Claim C9: the shared transport built by `runWorkers` has server
certificate verification disabled (`InsecureSkipVerify` set) whether
or not a client certificate and key are supplied. -/
theorem insecure_skip_verify_always (w : Work) :
    (runWorkersTransport w).tlsClientConfig.insecureSkipVerify = true := by
  unfold runWorkersTransport
  split <;> rfl

/-- Claim C10: `Init` is idempotent — a repeated call is a no-op on
an initialized `Work`, so the result stream and stop channel are
allocated exactly once and later calls leave them unchanged. -/
theorem init_idempotent (w : Work) :
    Work.Init (Work.Init w) = Work.Init w
    ∧ (w.initialized = true → Work.Init w = w) := by
  constructor
  · unfold Work.Init
    by_cases h : w.initialized <;> simp [h]
  · intro h
    unfold Work.Init
    simp [h]

/-- Witness for C10 at the concrete `Work`. -/
theorem init_idempotent_witness :
    Work.Init (Work.Init exWork) = Work.Init exWork
    ∧ (exWork.initialized = true → Work.Init exWork = exWork) :=
  init_idempotent exWork

lemma firstPos_append_of_mem {α : Type} [DecidableEq α] (e : α) (l1 l2 : List α)
    (hmem : e ∈ l1) : firstPos e (l1 ++ l2) = firstPos e l1 := by
  induction l1 with
  | nil => cases hmem
  | cons x xs ih =>
    by_cases hx : x = e
    · simp [firstPos, hx]
    · have hmem2 : e ∈ xs := by
        rcases List.mem_cons.1 hmem with h | h
        · exact absurd h.symm hx
        · exact h
      simp [firstPos, hx, ih hmem2]

lemma firstPos_lt_length {α : Type} [DecidableEq α] (e : α) (l : List α)
    (hmem : e ∈ l) : firstPos e l < l.length := by
  induction l with
  | nil => cases hmem
  | cons x xs ih =>
    by_cases hx : x = e
    · simp [firstPos, hx]
    · have hmem2 : e ∈ xs := by
        rcases List.mem_cons.1 hmem with h | h
        · exact absurd h.symm hx
        · exact h
      have := ih hmem2
      simp [firstPos, hx]
      omega

lemma firstPos_cons_ne {α : Type} [DecidableEq α] (x e : α) (l : List α)
    (hx : x ≠ e) : firstPos e (x :: l) = firstPos e l + 1 := by
  simp [firstPos, hx]

lemma firstPos_append_of_not_mem {α : Type} [DecidableEq α] (e : α) (l1 l2 : List α)
    (hmem : e ∉ l1) : firstPos e (l1 ++ l2) = l1.length + firstPos e l2 := by
  induction l1 with
  | nil => simp [firstPos]
  | cons x xs ih =>
    have hx : x ≠ e := fun h => hmem (h ▸ List.mem_cons_self x xs)
    have hxs : e ∉ xs := fun h => hmem (List.mem_cons_of_mem x h)
    simp [firstPos, hx, ih hxs]
    omega

/-- Claim C3: in every `Run()` trace — whatever the interleaving of
the worker events inside the `runWorkers` block — the reporter start
is the very first event, before any worker start; every worker's
completion precedes the closing of the result stream; the close
precedes the wait for the reporter to finish draining, which precedes
the production of the final summary; and the summary production is
the last event, so `Run()` returns only after it. -/
theorem run_lifecycle_order (cWorkers : Nat) (wes : List Event)
    (hw : ∀ e ∈ wes, ∃ i, e = Event.startWorker i ∨ e = Event.workerDone i)
    (hdone : ∀ i, i < cWorkers → Event.workerDone i ∈ wes) :
    firstPos Event.startReporter (runTrace wes) = 0
    ∧ (∀ i, Event.startWorker i ∈ wes →
        firstPos Event.startReporter (runTrace wes) <
          firstPos (Event.startWorker i) (runTrace wes))
    ∧ (∀ i, i < cWorkers →
        firstPos (Event.workerDone i) (runTrace wes) <
          firstPos Event.closeResults (runTrace wes))
    ∧ firstPos Event.closeResults (runTrace wes) <
        firstPos Event.reporterDrained (runTrace wes)
    ∧ firstPos Event.reporterDrained (runTrace wes) <
        firstPos Event.finalizeSummary (runTrace wes)
    ∧ firstPos Event.finalizeSummary (runTrace wes) = (runTrace wes).length - 1 := by
  have hcr : Event.closeResults ∉ wes := by
    intro hmem
    rcases hw _ hmem with ⟨i, h | h⟩ <;> cases h
  have hrd : Event.reporterDrained ∉ wes := by
    intro hmem
    rcases hw _ hmem with ⟨i, h | h⟩ <;> cases h
  have hfs : Event.finalizeSummary ∉ wes := by
    intro hmem
    rcases hw _ hmem with ⟨i, h | h⟩ <;> cases h
  have ecr : firstPos Event.closeResults (runTrace wes) = wes.length + 1 := by
    rw [runTrace, List.cons_append, firstPos_cons_ne Event.startReporter Event.closeResults _ (by simp), firstPos_append_of_not_mem _ _ _ hcr]
    simp [firstPos]
  have erd : firstPos Event.reporterDrained (runTrace wes) = wes.length + 2 := by
    rw [runTrace, List.cons_append, firstPos_cons_ne Event.startReporter Event.reporterDrained _ (by simp), firstPos_append_of_not_mem _ _ _ hrd]
    simp [firstPos]
  have efs : firstPos Event.finalizeSummary (runTrace wes) = wes.length + 3 := by
    rw [runTrace, List.cons_append, firstPos_cons_ne Event.startReporter Event.finalizeSummary _ (by simp), firstPos_append_of_not_mem _ _ _ hfs]
    simp [firstPos]
  have elen : (runTrace wes).length = wes.length + 4 := by
    simp [runTrace]
  refine ⟨by simp [runTrace, firstPos], ?_, ?_, ?_, ?_, ?_⟩
  · intro i hmem
    simp [runTrace, firstPos]
  · intro i hi
    have hmem := hdone i hi
    have e1 : firstPos (Event.workerDone i) (runTrace wes) =
        firstPos (Event.workerDone i) wes + 1 := by
      rw [runTrace, List.cons_append, firstPos_cons_ne Event.startReporter (Event.workerDone i) _ (by simp), firstPos_append_of_mem _ _ _ hmem]
    have e2 := firstPos_lt_length _ _ hmem
    omega
  · omega
  · omega
  · omega

/-- Witness for C3 on a concrete two-worker trace. -/
theorem run_lifecycle_order_witness :
    firstPos Event.startReporter (runTrace
        [Event.startWorker 0, Event.startWorker 1, Event.workerDone 1, Event.workerDone 0]) = 0
    ∧ (∀ i, Event.startWorker i ∈
          [Event.startWorker 0, Event.startWorker 1, Event.workerDone 1, Event.workerDone 0] →
        firstPos Event.startReporter (runTrace
            [Event.startWorker 0, Event.startWorker 1, Event.workerDone 1, Event.workerDone 0]) <
          firstPos (Event.startWorker i) (runTrace
            [Event.startWorker 0, Event.startWorker 1, Event.workerDone 1, Event.workerDone 0]))
    ∧ (∀ i, i < 2 →
        firstPos (Event.workerDone i) (runTrace
            [Event.startWorker 0, Event.startWorker 1, Event.workerDone 1, Event.workerDone 0]) <
          firstPos Event.closeResults (runTrace
            [Event.startWorker 0, Event.startWorker 1, Event.workerDone 1, Event.workerDone 0]))
    ∧ firstPos Event.closeResults (runTrace
          [Event.startWorker 0, Event.startWorker 1, Event.workerDone 1, Event.workerDone 0]) <
        firstPos Event.reporterDrained (runTrace
          [Event.startWorker 0, Event.startWorker 1, Event.workerDone 1, Event.workerDone 0])
    ∧ firstPos Event.reporterDrained (runTrace
          [Event.startWorker 0, Event.startWorker 1, Event.workerDone 1, Event.workerDone 0]) <
        firstPos Event.finalizeSummary (runTrace
          [Event.startWorker 0, Event.startWorker 1, Event.workerDone 1, Event.workerDone 0])
    ∧ firstPos Event.finalizeSummary (runTrace
          [Event.startWorker 0, Event.startWorker 1, Event.workerDone 1, Event.workerDone 0]) =
        (runTrace
          [Event.startWorker 0, Event.startWorker 1, Event.workerDone 1, Event.workerDone 0]).length - 1 :=
  run_lifecycle_order 2
    [Event.startWorker 0, Event.startWorker 1, Event.workerDone 1, Event.workerDone 0]
    (by
      intro e he
      fin_cases he
      · exact ⟨0, Or.inl rfl⟩
      · exact ⟨1, Or.inl rfl⟩
      · exact ⟨1, Or.inr rfl⟩
      · exact ⟨0, Or.inr rfl⟩)
    (by decide)

/-- Inverse of `Nat.digitChar` on decimal digits. -/
def digitVal (c : Char) : Nat := c.toNat - 48

lemma digitVal_digitChar : ∀ d, d < 10 → digitVal (Nat.digitChar d) = d := by decide

lemma digitChar_ne_dash : ∀ d, d < 10 → Nat.digitChar d ≠ '-' := by decide

lemma map_digitChar_inj : ∀ (l1 l2 : List Nat), (∀ d ∈ l1, d < 10) → (∀ d ∈ l2, d < 10) →
    l1.map Nat.digitChar = l2.map Nat.digitChar → l1 = l2 := by
  intro l1
  induction l1 with
  | nil => intro l2 _ _ hmap; cases l2 <;> simp_all
  | cons a t ih =>
    intro l2 h1 h2 hmap
    cases l2 with
    | nil => simp_all
    | cons b t2 =>
      simp only [List.map_cons, List.cons.injEq] at hmap
      have ha : a < 10 := h1 a (List.mem_cons_self a t)
      have hb : b < 10 := h2 b (List.mem_cons_self b t2)
      have hab : a = b := by
        have va := digitVal_digitChar a ha
        have vb := digitVal_digitChar b hb
        rw [← va, ← vb, hmap.1]
      have ht : t = t2 :=
        ih t2 (fun d hd => h1 d (List.mem_cons_of_mem a hd))
          (fun d hd => h2 d (List.mem_cons_of_mem b hd)) hmap.2
      rw [hab, ht]

lemma itoaChars_digits_lt (n : Nat) : ∀ d ∈ Nat.digits 10 n, d < 10 :=
  fun _ hd => Nat.digits_lt_base (by norm_num) hd

lemma itoaChars_inj : ∀ m n : Nat, itoaChars m = itoaChars n → m = n := by
  intro m n hmn
  unfold itoaChars at hmn
  by_cases hm : m = 0 <;> by_cases hn : n = 0
  · rw [hm, hn]
  · exfalso
    rw [if_pos hm, if_neg hn] at hmn
    have hrev := congrArg List.reverse hmn
    simp only [List.reverse_reverse] at hrev
    have : [(0 : Nat)] = Nat.digits 10 n := by
      apply map_digitChar_inj
      · intro d hd; simp at hd; omega
      · exact itoaChars_digits_lt n
      · simpa [Nat.digitChar] using hrev
    have h0 := Nat.ofDigits_digits 10 n
    rw [← this] at h0
    simp [Nat.ofDigits] at h0
    exact hn h0.symm
  · exfalso
    rw [if_neg hm, if_pos hn] at hmn
    have hrev := congrArg List.reverse hmn
    simp only [List.reverse_reverse] at hrev
    have : [(0 : Nat)] = Nat.digits 10 m := by
      apply map_digitChar_inj
      · intro d hd; simp at hd; omega
      · exact itoaChars_digits_lt m
      · simpa [Nat.digitChar] using hrev.symm
    have h0 := Nat.ofDigits_digits 10 m
    rw [← this] at h0
    simp [Nat.ofDigits] at h0
    exact hm h0.symm
  · rw [if_neg hm, if_neg hn] at hmn
    have hrev := congrArg List.reverse hmn
    simp only [List.reverse_reverse] at hrev
    have hdig : Nat.digits 10 m = Nat.digits 10 n :=
      map_digitChar_inj _ _ (itoaChars_digits_lt m) (itoaChars_digits_lt n) hrev
    have := congrArg (Nat.ofDigits 10) hdig
    rwa [Nat.ofDigits_digits, Nat.ofDigits_digits] at this

lemma dash_not_mem_itoaChars (n : Nat) : '-' ∉ itoaChars n := by
  unfold itoaChars
  split
  · decide
  · intro hmem
    rw [List.mem_reverse] at hmem
    obtain ⟨d, hd, hdc⟩ := List.mem_map.1 hmem
    exact digitChar_ne_dash d (itoaChars_digits_lt n d hd) hdc

lemma append_dash_inj : ∀ (xs1 : List Char) {ys1 xs2 ys2 : List Char},
    '-' ∉ xs1 → '-' ∉ xs2 →
    xs1 ++ '-' :: ys1 = xs2 ++ '-' :: ys2 → xs1 = xs2 ∧ ys1 = ys2 := by
  intro xs1
  induction xs1 with
  | nil =>
    intro ys1 xs2 ys2 _ h2 h
    cases xs2 with
    | nil => simpa using h
    | cons b t =>
      exfalso
      simp only [List.nil_append, List.cons_append, List.cons.injEq] at h
      exact h2 (h.1 ▸ List.mem_cons_self b t)
  | cons a t ih =>
    intro ys1 xs2 ys2 h1 h2 h
    cases xs2 with
    | nil =>
      exfalso
      simp only [List.nil_append, List.cons_append, List.cons.injEq] at h
      exact h1 (h.1.symm ▸ List.mem_cons_self a t)
    | cons b t2 =>
      simp only [List.cons_append, List.cons.injEq] at h
      have hrec := ih (fun hm => h1 (List.mem_cons_of_mem a hm))
        (fun hm => h2 (List.mem_cons_of_mem b hm)) h.2
      exact ⟨by rw [h.1, hrec.1], hrec.2⟩

lemma tag_data (g n : Nat) : (tag g n).data = itoaChars g ++ '-' :: itoaChars n := by
  simp [tag, itoa, String.data_append]

/-- Claim C5: the uniqueness tag substituted for the `HEY` marker is
`itoa(gort) ++ "-" ++ itoa(n)`, a function of the worker index and
the iteration count alone, and any two distinct
(worker index, iteration count) pairs yield distinct tag strings. -/
theorem tags_pairwise_distinct (g1 n1 g2 n2 : Nat)
    (hne : (g1, n1) ≠ (g2, n2)) : tag g1 n1 ≠ tag g2 n2 := by
  intro heq
  apply hne
  have hdata := congrArg String.data heq
  rw [tag_data, tag_data] at hdata
  have hsplit := append_dash_inj (itoaChars g1)
    (dash_not_mem_itoaChars g1) (dash_not_mem_itoaChars g2) hdata
  have hg := itoaChars_inj g1 g2 hsplit.1
  have hn := itoaChars_inj n1 n2 hsplit.2
  rw [hg, hn]

/-- Witness for C5: the tags of (worker 1, iteration 23) and
(worker 12, iteration 3) differ. -/
theorem tags_pairwise_distinct_witness : tag 1 23 ≠ tag 12 3 :=
  tags_pairwise_distinct 1 23 12 3 (by decide)

lemma getD_append_lt {α : Type} :
    ∀ (l1 l2 : List α) (i : Nat) (d : α), i < l1.length →
    (l1 ++ l2).getD i d = l1.getD i d := by
  intro l1
  induction l1 with
  | nil => intro l2 i d hi; simp at hi
  | cons x xs ih =>
    intro l2 i d hi
    cases i with
    | zero => rfl
    | succ i =>
      simp only [List.cons_append, List.getD_cons_succ]
      exact ih l2 i d (by simpa using hi)

lemma getD_set_ne {α : Type} :
    ∀ (l : List α) (j i : Nat) (v d : α), i ≠ j →
    (l.set j v).getD i d = l.getD i d := by
  intro l
  induction l with
  | nil => intro j i v d hij; simp
  | cons x xs ih =>
    intro j i v d hij
    cases j with
    | zero =>
      cases i with
      | zero => exact absurd rfl hij
      | succ i => simp [List.set]
    | succ j =>
      cases i with
      | zero => simp [List.set]
      | succ i =>
        simp only [List.set, List.getD_cons_succ]
        exact ih j i v d (by omega)

lemma getD_set_self {α : Type} :
    ∀ (l : List α) (j : Nat) (v d : α), j < l.length →
    (l.set j v).getD j d = v := by
  intro l
  induction l with
  | nil => intro j v d hj; simp at hj
  | cons x xs ih =>
    intro j v d hj
    cases j with
    | zero => rfl
    | succ j =>
      simp only [List.set, List.getD_cons_succ]
      exact ih j v d (by simpa using hj)

/-- A concrete heap holding the template request's URL object (its
host and path contain the marker) and its header map. -/
def exHeapMark : Heap :=
  { urls := [{ host := "HEY.example.com", path := "/api/HEY" }],
    headers := [[("X-Mark", ["HEY"])]] }

/-- A concrete `Work` whose uniqueness-marker toggle is on. -/
def exWorkMark : Work :=
  { request := exTemplate, requestBody := "payload-HEY", n := 1, c := 1, randMark := true }

/-- Counterexample to claim C4 as stated: after worker 0 builds its
iteration-0 request, the Request Template's URL object has been
mutated — `cloneRequest` is a shallow struct copy, so the clone's URL
pointer aliases the template's and the marker substitution writes the
tag into the shared object. -/
theorem clone_counterexample :
    ((buildRequest exWorkMark exHeapMark 0 0).1).urls.getD 0 { host := "", path := "" } ≠
      exHeapMark.urls.getD 0 { host := "", path := "" } := by decide

/-- Claim C4 (amended): with no custom generator supplied, the clone
carries a fresh header map, so the per-iteration header-value and
body substitutions leave the Request Template's header map unchanged;
but the clone shares the template's URL object (shallow pointer
copy), so with the marker toggle on, the substitution into the URL
host and path rewrites that shared object in place. -/
lemma applyRandMark_heap (w : Work) (h : Heap) (req : Request) (g n : Nat) :
    (applyRandMark w h req g n).1 =
      { urls := h.urls.set req.urlRef
          (markURL (h.urls.getD req.urlRef { host := "", path := "" }) (tag g n))
        headers := h.headers.set req.headerRef
          (substHeader (h.headers.getD req.headerRef []) (tag g n)) } := rfl

lemma applyRandMark_urlRef (w : Work) (h : Heap) (req : Request) (g n : Nat) :
    (applyRandMark w h req g n).2.urlRef = req.urlRef := rfl

lemma cloneRequest_heap (h : Heap) (r : Request) (body : String) :
    (cloneRequest h r body).1 =
      { h with headers := h.headers ++ [h.headers.getD r.headerRef []] } := rfl

lemma cloneRequest_req (h : Heap) (r : Request) (body : String) :
    (cloneRequest h r body).2 =
      { r with
          headerRef := h.headers.length
          body := if 0 < body.length then some body else r.body } := rfl

lemma buildRequest_eq (w : Work) (h : Heap) (g n : Nat) (hrf : w.requestFunc = none) :
    buildRequest w h g n =
      if w.randMark then
        applyRandMark w (cloneRequest h w.request w.requestBody).1
          (cloneRequest h w.request w.requestBody).2 g n
      else cloneRequest h w.request w.requestBody := by
  unfold buildRequest
  rw [hrf]

theorem clone_header_fresh_url_shared (w : Work) (h : Heap) (g n : Nat)
    (hrf : w.requestFunc = none)
    (hhr : w.request.headerRef < h.headers.length)
    (hur : w.request.urlRef < h.urls.length) :
    ((buildRequest w h g n).1).headers.getD w.request.headerRef [] =
        h.headers.getD w.request.headerRef []
    ∧ ((buildRequest w h g n).2).urlRef = w.request.urlRef
    ∧ (w.randMark = true →
        ((buildRequest w h g n).1).urls.getD w.request.urlRef { host := "", path := "" } =
          markURL (h.urls.getD w.request.urlRef { host := "", path := "" }) (tag g n)) := by
  rw [buildRequest_eq w h g n hrf]
  by_cases hrm : w.randMark = true
  · rw [if_pos hrm]
    refine ⟨?_, ?_, fun _ => ?_⟩
    · rw [applyRandMark_heap, cloneRequest_heap, cloneRequest_req]
      simp only
      rw [getD_set_ne _ _ _ _ _ (by omega), getD_append_lt _ _ _ _ hhr]
    · rw [applyRandMark_urlRef, cloneRequest_req]
    · rw [applyRandMark_heap, cloneRequest_heap, cloneRequest_req]
      simp only
      rw [getD_set_self _ _ _ _ hur]
  · have hrm2 : w.randMark = false := by
      cases hx : w.randMark
      · rfl
      · exact absurd hx hrm
    rw [if_neg (by simp [hrm2])]
    refine ⟨?_, ?_, fun hcontra => absurd hcontra hrm⟩
    · rw [cloneRequest_heap]
      simp only
      rw [getD_append_lt _ _ _ _ hhr]
    · rw [cloneRequest_req]

/-- Witness for the amended C4 at the concrete marked template. -/
theorem clone_header_fresh_url_shared_witness :
    ((buildRequest exWorkMark exHeapMark 0 0).1).headers.getD exWorkMark.request.headerRef [] =
        exHeapMark.headers.getD exWorkMark.request.headerRef []
    ∧ ((buildRequest exWorkMark exHeapMark 0 0).2).urlRef = exWorkMark.request.urlRef
    ∧ (exWorkMark.randMark = true →
        ((buildRequest exWorkMark exHeapMark 0 0).1).urls.getD exWorkMark.request.urlRef
            { host := "", path := "" } =
          markURL (exHeapMark.urls.getD exWorkMark.request.urlRef { host := "", path := "" })
            (tag 0 0)) :=
  clone_header_fresh_url_shared exWorkMark exHeapMark 0 0 rfl (by decide) (by decide)

end Hey
